import Mathlib

/-!
A shallow embedding of `src/claudtracker.py` (ClaudTracker), covering the
session-log parser (`parse_jsonl_file`, `_process_entry`,
`_extract_project_name`), the aggregation layer (`get_all_sessions_stats`,
`get_aggregated_stats`, `get_daily_stats`, the top-projects block of `main`)
and the cost calculator (`calculate_equivalent_cost` with the `PRICING`
table).

Modelling conventions:
* Python floats are modelled as rationals (`ℚ`); the arithmetic the program
  performs (division by 1,000,000, multiplication by a rate, sums) is exact
  in this model.
* `datetime` values are modelled as integers (seconds); the calendar date of
  a timestamp as `t / 86400`.  All timestamps are assumed mutually
  comparable (the program compares parsed `datetime`s directly).
* One line of a JSONL source is modelled by `Line`: it either fails JSON
  decoding (`malformed` — skipped by the inner `except json.JSONDecodeError`
  branch), or decodes to a JSON object with defensively-typed fields
  (`record` — handled by `_process_entry`), or decodes to a non-object JSON
  value such as `5` (`nonObject`), on which `entry.get` raises
  `AttributeError` before touching any counter; that exception is caught
  only by the outer `except Exception`, which stores `str(e)` in
  `stats["parse_error"]` and stops processing further lines.
* A Python `set` of strings is modelled by a duplicate-free list in
  insertion order; the materialisation `list(s)` enumerates the set in an
  implementation-defined, hash-dependent order, modelled by an explicit
  enumeration parameter constrained to produce a permutation of the set's
  contents (`valid_enum`).
-/

namespace ClaudTracker

/-- One entry of the `PRICING` table: USD per million tokens
(`input`, `output`, `cache_read`, `cache_write`). -/
structure PricingEntry where
  input : ℚ
  output : ℚ
  cache_read : ℚ
  cache_write : ℚ
  deriving DecidableEq

/-- The `"default"` entry of `PRICING`
(`{"input": 3.00, "output": 15.00, "cache_read": 0.30, "cache_write": 3.75}`). -/
def PRICING_default : PricingEntry := ⟨3, 15, 3/10, 15/4⟩

/-- The `PRICING` dictionary of `claudtracker.py`, as an association list in
declaration order.  Float literals are written as exact rationals
(e.g. `0.50 = 1/2`, `6.25 = 25/4`). -/
def PRICING : List (String × PricingEntry) :=
  [("claude-opus-4-5-20251101", ⟨5, 25, 1/2, 25/4⟩),
   ("claude-sonnet-4-20250514", ⟨3, 15, 3/10, 15/4⟩),
   ("claude-haiku-4-5", ⟨1, 5, 1/10, 5/4⟩),
   ("claude-opus-4-1", ⟨15, 75, 3/2, 75/4⟩),
   ("default", PRICING_default)]

/-- `PRICING.get(model, PRICING["default"])`: dictionary lookup with the
`"default"` entry as fallback. -/
def PRICING_get (model : String) : PricingEntry :=
  match PRICING.find? (fun kv => kv.1 == model) with
  | some kv => kv.2
  | none => PRICING_default

/-- The token-count bundle read by `calculate_equivalent_cost` via
`stats.get("total_…_tokens", 0)`.  JSON integers are modelled as `ℤ`. -/
structure TokenBundle where
  total_input_tokens : ℤ
  total_output_tokens : ℤ
  total_cache_read_tokens : ℤ
  total_cache_write_tokens : ℤ

/-- The dictionary returned by `calculate_equivalent_cost`. -/
structure CostBreakdown where
  input_cost : ℚ
  output_cost : ℚ
  cache_read_cost : ℚ
  cache_write_cost : ℚ
  total_cost : ℚ
  model_pricing : String

/-- `ClaudeCodeUsageTracker.calculate_equivalent_cost` (lines 218–234):
each component is `(tokens / 1_000_000) * rate` with the rates drawn from
`PRICING.get(model, PRICING["default"])`, and `total_cost` is the sum of
the four components. -/
def calculate_equivalent_cost (stats : TokenBundle) (model : String) : CostBreakdown :=
  let pricing := PRICING_get model
  let input_cost := ((stats.total_input_tokens : ℚ) / 1000000) * pricing.input
  let output_cost := ((stats.total_output_tokens : ℚ) / 1000000) * pricing.output
  let cache_read_cost := ((stats.total_cache_read_tokens : ℚ) / 1000000) * pricing.cache_read
  let cache_write_cost := ((stats.total_cache_write_tokens : ℚ) / 1000000) * pricing.cache_write
  { input_cost := input_cost
    output_cost := output_cost
    cache_read_cost := cache_read_cost
    cache_write_cost := cache_write_cost
    total_cost := input_cost + output_cost + cache_read_cost + cache_write_cost
    model_pricing := model }

/-- Every rate in the concrete `PRICING` table is non-negative. -/
theorem PRICING_rates_nonneg :
    ∀ kv ∈ PRICING, 0 ≤ kv.2.input ∧ 0 ≤ kv.2.output ∧
      0 ≤ kv.2.cache_read ∧ 0 ≤ kv.2.cache_write := by
  intro kv hkv
  simp only [PRICING, PRICING_default, List.mem_cons, List.not_mem_nil, or_false] at hkv
  rcases hkv with h | h | h | h | h <;> subst h <;>
    exact ⟨by norm_num, by norm_num, by norm_num, by norm_num⟩

/-- The pricing entry selected for any model key has non-negative rates. -/
theorem PRICING_get_nonneg (model : String) :
    0 ≤ (PRICING_get model).input ∧ 0 ≤ (PRICING_get model).output ∧
      0 ≤ (PRICING_get model).cache_read ∧ 0 ≤ (PRICING_get model).cache_write := by
  unfold PRICING_get
  cases hf : PRICING.find? (fun kv => kv.1 == model) with
  | none =>
    exact ⟨by norm_num [PRICING_default], by norm_num [PRICING_default],
      by norm_num [PRICING_default], by norm_num [PRICING_default]⟩
  | some kv =>
    exact PRICING_rates_nonneg kv (List.mem_of_find?_eq_some hf)

/-- C1: for a token bundle with non-negative counts and any model key,
`calculate_equivalent_cost` returns components each equal to
`(tokens / 1_000_000) * rate` with rates from the pricing entry for the
model key (the `"default"` entry when the key is absent from the table —
not an error), a `total_cost` equal to the sum of the four components, and
all components and the total non-negative. -/
theorem calculate_equivalent_cost_correct (b : TokenBundle) (model : String)
    (h1 : 0 ≤ b.total_input_tokens) (h2 : 0 ≤ b.total_output_tokens)
    (h3 : 0 ≤ b.total_cache_read_tokens) (h4 : 0 ≤ b.total_cache_write_tokens) :
    let p := PRICING_get model
    let c := calculate_equivalent_cost b model
    c.input_cost = ((b.total_input_tokens : ℚ) / 1000000) * p.input ∧
    c.output_cost = ((b.total_output_tokens : ℚ) / 1000000) * p.output ∧
    c.cache_read_cost = ((b.total_cache_read_tokens : ℚ) / 1000000) * p.cache_read ∧
    c.cache_write_cost = ((b.total_cache_write_tokens : ℚ) / 1000000) * p.cache_write ∧
    c.total_cost = c.input_cost + c.output_cost + c.cache_read_cost + c.cache_write_cost ∧
    (PRICING.find? (fun kv => kv.1 == model) = none → p = PRICING_default) ∧
    0 ≤ c.input_cost ∧ 0 ≤ c.output_cost ∧ 0 ≤ c.cache_read_cost ∧
    0 ≤ c.cache_write_cost ∧ 0 ≤ c.total_cost := by
  intro p c
  obtain ⟨p1, p2, p3, p4⟩ := PRICING_get_nonneg model
  have q1 : (0:ℚ) ≤ (b.total_input_tokens : ℚ) / 1000000 := by positivity
  have q2 : (0:ℚ) ≤ (b.total_output_tokens : ℚ) / 1000000 := by positivity
  have q3 : (0:ℚ) ≤ (b.total_cache_read_tokens : ℚ) / 1000000 := by positivity
  have q4 : (0:ℚ) ≤ (b.total_cache_write_tokens : ℚ) / 1000000 := by positivity
  refine ⟨rfl, rfl, rfl, rfl, rfl, ?_, ?_, ?_, ?_, ?_, ?_⟩
  · intro hnone
    simp only [p, PRICING_get, hnone]
  · exact mul_nonneg q1 p1
  · exact mul_nonneg q2 p2
  · exact mul_nonneg q3 p3
  · exact mul_nonneg q4 p4
  · have := mul_nonneg q1 p1
    have := mul_nonneg q2 p2
    have := mul_nonneg q3 p3
    have := mul_nonneg q4 p4
    show 0 ≤ _ + _ + _ + _
    positivity

/-- C1 witness: the theorem applied to the concrete bundle
`(1_000_000, 2_000_000, 0, 0)` and the absent model key `"nope"`. -/
theorem calculate_equivalent_cost_correct_witness :
    let b : TokenBundle := ⟨1000000, 2000000, 0, 0⟩
    let p := PRICING_get "nope"
    let c := calculate_equivalent_cost b "nope"
    c.input_cost = ((b.total_input_tokens : ℚ) / 1000000) * p.input ∧
    c.output_cost = ((b.total_output_tokens : ℚ) / 1000000) * p.output ∧
    c.cache_read_cost = ((b.total_cache_read_tokens : ℚ) / 1000000) * p.cache_read ∧
    c.cache_write_cost = ((b.total_cache_write_tokens : ℚ) / 1000000) * p.cache_write ∧
    c.total_cost = c.input_cost + c.output_cost + c.cache_read_cost + c.cache_write_cost ∧
    (PRICING.find? (fun kv => kv.1 == "nope") = none → p = PRICING_default) ∧
    0 ≤ c.input_cost ∧ 0 ≤ c.output_cost ∧ 0 ≤ c.cache_read_cost ∧
    0 ≤ c.cache_write_cost ∧ 0 ≤ c.total_cost :=
  calculate_equivalent_cost_correct ⟨1000000, 2000000, 0, 0⟩ "nope"
    (by decide) (by decide) (by decide) (by decide)

/-- Python `str.split(sep)` for a one-character separator: the scanning
loop, accumulating the current piece in reverse. -/
def py_split_go (sep : Char) : List Char → List Char → List String
  | [], cur => [String.mk cur.reverse]
  | c :: cs, cur =>
    if c = sep then String.mk cur.reverse :: py_split_go sep cs []
    else py_split_go sep cs (c :: cur)

/-- Python `str.split(sep)` for a one-character separator (the source uses
`filepath.split("/")` and `project_path.split("-")`).  Like Python, it keeps
empty pieces and returns `[""]` on the empty string. -/
def py_split (s : String) (sep : Char) : List String :=
  py_split_go sep s.toList []

/-- Python `project_path.startswith("-")` (line 109). -/
def starts_with_dash (s : String) : Bool :=
  match s.toList with
  | c :: _ => c = '-'
  | [] => false

/-- The needle occurs at the head of the haystack (character lists). -/
def starts_chars : List Char → List Char → Bool
  | [], _ => true
  | _ :: _, [] => false
  | n :: ns, h :: hs => n = h && starts_chars ns hs

/-- Python substring containment `needle in hay`, on character lists. -/
def contains_chars (needle : List Char) : List Char → Bool
  | [] => needle.isEmpty
  | h :: t => starts_chars needle (h :: t) || contains_chars needle t

/-- `"error" in entry_type.lower()` (line 157). -/
def contains_error (t : String) : Bool :=
  contains_chars "error".toList (t.toList.map Char.toLower)

/-- The `for i, part in enumerate(parts)` loop of `_extract_project_name`
(lines 105–114): the first `"projects"` segment that has a following
segment selects that following segment as the raw project token; a token
beginning with `"-"` is split on `"-"` and its last piece — `segments[-1]`,
possibly the empty string — is returned; otherwise the token itself; with
no match the result is `"unknown"`.  (`split` never returns an empty list,
so the Python `if segments else project_path` fallback is modelled by
`getLastD` with the same fallback value.) -/
def extract_project_loop : List String → String
  | [] => "unknown"
  | p :: rest =>
    if p = "projects" ∧ rest ≠ [] then
      let next := rest.headD ""
      if starts_with_dash next then (py_split next '-').getLastD next else next
    else extract_project_loop rest

/-- `_extract_project_name` (lines 102–114). -/
def extract_project_name (filepath : String) : String :=
  extract_project_loop (py_split filepath '/')

/-- The `timestamp` field of a record (lines 119–129): missing or falsy
(`if timestamp:` fails), present but rejected by `datetime.fromisoformat`
(the exception is swallowed by the bare `except: pass`), or parsing to a
time `t`, modelled as an integer. -/
inductive TsField where
  | absent
  | invalid
  | valid (t : ℤ)
  deriving DecidableEq

/-- One element of `message["content"]` (lines 151–154): `ctype` is
`item.get("type")` when the element is a dict, and `none` when the element
is not a dict (`isinstance(item, dict)` fails). -/
structure ContentItem where
  ctype : Option String
  deriving DecidableEq

/-- The `usage` sub-object of an assistant message (lines 140–144), with the
four token fields read by `usage.get(…, 0)`; JSON integers are modelled as
`ℤ`.  A missing field is already defaulted to `0` here. -/
structure Usage where
  input_tokens : ℤ
  output_tokens : ℤ
  cache_read_input_tokens : ℤ
  cache_creation_input_tokens : ℤ
  deriving DecidableEq

/-- The `message` object of a record (lines 137–154).  `usage = none` models
both a missing and an empty (falsy) `usage` dict, since `if usage:` skips
both. -/
structure Message where
  usage : Option Usage
  model : String
  content : List ContentItem
  deriving DecidableEq

/-- One decoded JSON-object record, restricted to the fields
`_process_entry` reads defensively: `etype` is `entry.get("type", "")`,
`error` is the truthiness of `entry.get("error")`. -/
structure Entry where
  etype : String
  timestamp : TsField
  message : Message
  error : Bool
  deriving DecidableEq

/-- One line of a JSONL source: it fails JSON decoding (skipped by the
inner `except json.JSONDecodeError`), or decodes to an object record, or
decodes to a non-object JSON value such as `5`, on which `entry.get`
raises `AttributeError` before touching any counter — an exception caught
only by the outer `except Exception` handler. -/
inductive Line where
  | malformed
  | record (e : Entry)
  | nonObject (msg : String)
  deriving DecidableEq

/-- The `stats` dictionary of `parse_jsonl_file` (lines 73–86, 96–99).
`models_used` is the contents of the Python set in insertion order
(duplicate-free). -/
structure SessionStats where
  file : String
  project : String
  input_tokens : ℤ
  output_tokens : ℤ
  cache_read_tokens : ℤ
  cache_write_tokens : ℤ
  messages_count : ℕ
  tool_calls : ℕ
  models_used : List String
  start_time : Option ℤ
  end_time : Option ℤ
  errors : ℕ
  parse_error : Option String
  deriving DecidableEq

/-- `set.add` on the insertion-ordered duplicate-free contents list. -/
def set_add (s : List String) (m : String) : List String :=
  if m ∈ s then s else s ++ [m]

/-- Lines 121–129 of `_process_entry`: the timestamp min/max update
(`start_time` on strict less-than, `end_time` on strict greater-than). -/
def ts_update (entry : Entry) (stats : SessionStats) : SessionStats :=
  match entry.timestamp with
  | .valid ts =>
    let s1 :=
      match stats.start_time with
      | none => { stats with start_time := some ts }
      | some st => if ts < st then { stats with start_time := some ts } else stats
    match s1.end_time with
    | none => { s1 with end_time := some ts }
    | some et => if et < ts then { s1 with end_time := some ts } else s1
  | _ => stats

/-- Lines 131–133 of `_process_entry`: `"user"` records increment
`messages_count`. -/
def user_update (entry : Entry) (stats : SessionStats) : SessionStats :=
  if entry.etype = "user" then
    { stats with messages_count := stats.messages_count + 1 }
  else stats

/-- Lines 135–154 of `_process_entry`: `"assistant"` records accumulate
usage tokens, record the model, and count `"tool_use"` content items. -/
def assistant_update (entry : Entry) (stats : SessionStats) : SessionStats :=
  if entry.etype = "assistant" then
    let message := entry.message
    let stats :=
      match message.usage with
      | some usage =>
        { stats with
          input_tokens := stats.input_tokens + usage.input_tokens
          output_tokens := stats.output_tokens + usage.output_tokens
          cache_read_tokens := stats.cache_read_tokens + usage.cache_read_input_tokens
          cache_write_tokens := stats.cache_write_tokens + usage.cache_creation_input_tokens }
      | none => stats
    let stats :=
      if message.model ≠ "" then
        { stats with models_used := set_add stats.models_used message.model }
      else stats
    { stats with
      tool_calls := stats.tool_calls +
        message.content.countP (fun item => item.ctype == some "tool_use") }
  else stats

/-- Lines 156–158 of `_process_entry`: a record whose type contains
`"error"` (case-insensitively) or whose `error` field is truthy increments
`errors`. -/
def error_update (entry : Entry) (stats : SessionStats) : SessionStats :=
  if contains_error entry.etype || entry.error then
    { stats with errors := stats.errors + 1 }
  else stats

/-- `_process_entry` (lines 116–158): the four blocks in source order. -/
def process_entry (entry : Entry) (stats : SessionStats) : SessionStats :=
  error_update entry (assistant_update entry (user_update entry (ts_update entry stats)))

/-- The fresh `stats` dictionary built at the top of `parse_jsonl_file`
(lines 73–86). -/
def init_stats (filepath : String) : SessionStats :=
  { file := filepath
    project := extract_project_name filepath
    input_tokens := 0
    output_tokens := 0
    cache_read_tokens := 0
    cache_write_tokens := 0
    messages_count := 0
    tool_calls := 0
    models_used := []
    start_time := none
    end_time := none
    errors := 0
    parse_error := none }

/-- The `for line in f` loop of `parse_jsonl_file` (lines 90–95) together
with the enclosing `except Exception` handler (lines 96–97): a `malformed`
line is skipped; a `nonObject` line raises out of the loop and the outer
handler stores `str(e)` in `stats["parse_error"]`, abandoning the remaining
lines. -/
def parse_lines : List Line → SessionStats → SessionStats
  | [], stats => stats
  | .malformed :: rest, stats => parse_lines rest stats
  | .record entry :: rest, stats => parse_lines rest (process_entry entry stats)
  | .nonObject msg :: _, stats => { stats with parse_error := some msg }

/-- The outcome of `open(filepath)` (line 89): either the file's lines, or
an exception (e.g. `FileNotFoundError`) carrying `str(e)`. -/
inductive FileContent where
  | unreadable (msg : String)
  | lines (ls : List Line)
  deriving DecidableEq

/-- `parse_jsonl_file` (lines 71–100), parameterised over the outcome of
`open` and over `enum`, the implementation-defined order in which
`list(stats["models_used"])` (line 99) enumerates the set.  CPython hash
randomisation makes this order vary between interpreter runs; `valid_enum`
below constrains it to a permutation of the set's contents. -/
def parse_jsonl_file_enum (enum : List String → List String)
    (filepath : String) (content : FileContent) : SessionStats :=
  let stats :=
    match content with
    | .unreadable msg => { init_stats filepath with parse_error := some msg }
    | .lines ls => parse_lines ls (init_stats filepath)
  { stats with models_used := enum stats.models_used }

/-- `parse_jsonl_file` with the set enumerated in insertion order. -/
def parse_jsonl_file (filepath : String) (content : FileContent) : SessionStats :=
  parse_jsonl_file_enum id filepath content

/-- A valid set enumeration returns the set's elements, each exactly once,
in some implementation-defined order. -/
def valid_enum (enum : List String → List String) : Prop :=
  ∀ s : List String, (enum s).Perm s

/-- `extract_project_loop` on a segment list whose first `"projects"`
segment has a following segment `tok`. -/
theorem extract_project_loop_found (pre rest : List String) (tok : String)
    (hpre : "projects" ∉ pre) :
    extract_project_loop (pre ++ "projects" :: tok :: rest) =
      (if starts_with_dash tok then (py_split tok '-').getLastD tok else tok) := by
  induction pre with
  | nil =>
    simp [extract_project_loop]
  | cons p pre ih =>
    have hp : p ≠ "projects" := fun h => hpre (h ▸ List.mem_cons_self p pre)
    have hrest := ih (fun h => hpre (List.mem_cons_of_mem p h))
    simpa [extract_project_loop, hp] using hrest

/-- `extract_project_loop` with no `"projects"` segment at all. -/
theorem extract_project_loop_unknown (parts : List String)
    (h : "projects" ∉ parts) :
    extract_project_loop parts = "unknown" := by
  induction parts with
  | nil => rfl
  | cons p rest ih =>
    have hp : p ≠ "projects" := fun hq => h (hq ▸ List.mem_cons_self p rest)
    simpa [extract_project_loop, hp] using ih (fun hq => h (List.mem_cons_of_mem p hq))

/-- C7 (amended): `_extract_project_name` splits the source identifier on
`"/"`; at the first `"projects"` segment followed by another segment, the
following segment is the raw project token; a token starting with `"-"`
yields the LAST PIECE (possibly empty) of the token split on `"-"`,
otherwise the token verbatim; with no `"projects"` segment the result is
`"unknown"`. -/
theorem extract_project_name_correct (filepath : String) :
    (∀ pre tok rest, py_split filepath '/' = pre ++ "projects" :: tok :: rest →
      "projects" ∉ pre →
      extract_project_name filepath =
        (if starts_with_dash tok then (py_split tok '-').getLastD tok else tok)) ∧
    ("projects" ∉ py_split filepath '/' →
      extract_project_name filepath = "unknown") := by
  constructor
  · intro pre tok rest hsplit hpre
    unfold extract_project_name
    rw [hsplit]
    exact extract_project_loop_found pre rest tok hpre
  · intro h
    exact extract_project_loop_unknown _ h

/-- C7 witness: the amended theorem applied to the concrete path
`"/home/u/projects/myapp/s.jsonl"`. -/
theorem extract_project_name_correct_witness :
    extract_project_name "/home/u/projects/myapp/s.jsonl" = "myapp" := by
  have h := (extract_project_name_correct "/home/u/projects/myapp/s.jsonl").1
    ["", "home", "u"] "myapp" ["s.jsonl"] (by decide) (by decide)
  rw [h]
  decide

/-- C7 counterexample: for the source path `"a/projects/-x-/f"` the raw
project token is `"-x-"`, whose last NON-EMPTY piece under a `"-"`-split is
`"x"`; the program instead returns `segments[-1]` verbatim, the empty
string. -/
theorem extract_project_name_not_last_nonempty :
    extract_project_name "a/projects/-x-/f" = "" ∧
    ((py_split "-x-" '-').filter (fun p => p != "")).getLastD "" = "x" ∧
    ("" : String) ≠ "x" := by
  refine ⟨by decide, by decide, by decide⟩

/-- The per-entry contribution of the `usage` block to one token counter:
zero unless the record is an `"assistant"` record carrying a truthy
`usage`. -/
def usage_contrib (entry : Entry) (f : Usage → ℤ) : ℤ :=
  if entry.etype = "assistant" then entry.message.usage.elim 0 f else 0

/-- `ts_update` touches only `start_time` and `end_time`. -/
theorem ts_update_eq (e : Entry) (s : SessionStats) :
    ∃ st et, ts_update e s = { s with start_time := st, end_time := et } := by
  unfold ts_update
  repeat' (first | split | dsimp only)
  all_goals exact ⟨_, _, rfl⟩

/-- `user_update` adds the user-record indicator to `messages_count`. -/
theorem user_update_eq (e : Entry) (s : SessionStats) :
    user_update e s =
      { s with messages_count :=
          s.messages_count + (if e.etype = "user" then 1 else 0) } := by
  unfold user_update
  by_cases h : e.etype = "user" <;> simp [h]

/-- `error_update` adds the error indicator to `errors`. -/
theorem error_update_eq (e : Entry) (s : SessionStats) :
    error_update e s =
      { s with errors :=
          s.errors + (if contains_error e.etype || e.error then 1 else 0) } := by
  unfold error_update
  by_cases h : (contains_error e.etype || e.error) = true <;> simp [h]

/-- `assistant_update` adds the usage contributions to the token counters,
adds the model to the set, and adds the `"tool_use"` count to
`tool_calls`; every other field is untouched. -/
theorem assistant_update_eq (e : Entry) (s : SessionStats) :
    assistant_update e s =
      { s with
        input_tokens := s.input_tokens + usage_contrib e Usage.input_tokens
        output_tokens := s.output_tokens + usage_contrib e Usage.output_tokens
        cache_read_tokens :=
          s.cache_read_tokens + usage_contrib e Usage.cache_read_input_tokens
        cache_write_tokens :=
          s.cache_write_tokens + usage_contrib e Usage.cache_creation_input_tokens
        models_used :=
          if e.etype = "assistant" ∧ e.message.model ≠ "" then
            set_add s.models_used e.message.model
          else s.models_used
        tool_calls := s.tool_calls +
          (if e.etype = "assistant" then
            e.message.content.countP (fun item => item.ctype == some "tool_use")
          else 0) } := by
  unfold assistant_update usage_contrib
  by_cases ha : e.etype = "assistant"
  · rcases hu : e.message.usage with _ | u <;>
      by_cases hm : e.message.model ≠ "" <;>
        simp [ha, hu, hm]
  · simp [ha]

/-- Field characterisation of `_process_entry`: each counter grows by the
entry's own (possibly negative) usage contribution, the model set is
extended by `set.add`, and `file`, `project` and `parse_error` are
untouched. -/
theorem process_entry_fields (e : Entry) (s : SessionStats) :
    (process_entry e s).file = s.file ∧
    (process_entry e s).project = s.project ∧
    (process_entry e s).parse_error = s.parse_error ∧
    (process_entry e s).input_tokens =
      s.input_tokens + usage_contrib e Usage.input_tokens ∧
    (process_entry e s).output_tokens =
      s.output_tokens + usage_contrib e Usage.output_tokens ∧
    (process_entry e s).cache_read_tokens =
      s.cache_read_tokens + usage_contrib e Usage.cache_read_input_tokens ∧
    (process_entry e s).cache_write_tokens =
      s.cache_write_tokens + usage_contrib e Usage.cache_creation_input_tokens ∧
    (process_entry e s).messages_count =
      s.messages_count + (if e.etype = "user" then 1 else 0) ∧
    (process_entry e s).tool_calls =
      s.tool_calls + (if e.etype = "assistant" then
        e.message.content.countP (fun item => item.ctype == some "tool_use") else 0) ∧
    (process_entry e s).errors =
      s.errors + (if contains_error e.etype || e.error then 1 else 0) ∧
    (process_entry e s).models_used =
      (if e.etype = "assistant" ∧ e.message.model ≠ "" then
        set_add s.models_used e.message.model
      else s.models_used) := by
  obtain ⟨st, et, hts⟩ := ts_update_eq e s
  unfold process_entry
  rw [hts, user_update_eq, assistant_update_eq, error_update_eq]
  exact ⟨rfl, rfl, rfl, rfl, rfl, rfl, rfl, rfl, rfl, rfl, rfl⟩

/-- Dropping the undecodable lines from the line stream leaves the parse
fold unchanged. -/
theorem parse_lines_filter_malformed (ls : List Line) (s : SessionStats) :
    parse_lines (ls.filter (fun l => decide (l ≠ Line.malformed))) s = parse_lines ls s := by
  induction ls generalizing s with
  | nil => rfl
  | cons l rest ih =>
    cases l with
    | malformed => simpa [parse_lines] using ih s
    | record e => simpa [parse_lines] using ih (process_entry e s)
    | nonObject msg => simp [parse_lines]

/-- C2: a source whose lines interleave JSON records with lines that fail
JSON decoding parses to a `SessionStats` identical to the same source with
the undecodable lines removed: an undecodable line is skipped without
aborting the parse and contributes to no counter. -/
theorem parse_jsonl_file_skips_malformed (filepath : String) (ls : List Line) :
    parse_jsonl_file filepath (.lines ls) =
      parse_jsonl_file filepath
        (.lines (ls.filter (fun l => decide (l ≠ Line.malformed)))) := by
  simp only [parse_jsonl_file, parse_jsonl_file_enum, parse_lines_filter_malformed]

/-- C3 (amended): when the parse failure comes from failing to open/read
the source itself — the case the spec describes — every counter is at its
zero/empty default.  (A `parse_error` set by a mid-stream processing
exception, by contrast, keeps the counters accumulated before the failing
line; see the counterexample.) -/
theorem parse_unreadable_zero_counters (filepath msg : String) :
    (parse_jsonl_file filepath (.unreadable msg)).parse_error = some msg ∧
    (parse_jsonl_file filepath (.unreadable msg)).input_tokens = 0 ∧
    (parse_jsonl_file filepath (.unreadable msg)).output_tokens = 0 ∧
    (parse_jsonl_file filepath (.unreadable msg)).cache_read_tokens = 0 ∧
    (parse_jsonl_file filepath (.unreadable msg)).cache_write_tokens = 0 ∧
    (parse_jsonl_file filepath (.unreadable msg)).messages_count = 0 ∧
    (parse_jsonl_file filepath (.unreadable msg)).tool_calls = 0 ∧
    (parse_jsonl_file filepath (.unreadable msg)).errors = 0 ∧
    (parse_jsonl_file filepath (.unreadable msg)).models_used = [] ∧
    (parse_jsonl_file filepath (.unreadable msg)).start_time = none ∧
    (parse_jsonl_file filepath (.unreadable msg)).end_time = none :=
  ⟨rfl, rfl, rfl, rfl, rfl, rfl, rfl, rfl, rfl, rfl, rfl⟩

/-- C3 counterexample: a source whose first line is a valid `"user"` record
and whose second line is the non-object JSON value `5` (on which
`entry.get` raises `AttributeError`, so the outer handler records the
failure) returns a `SessionStats` that carries a `parse_error` AND a
nonzero `messages_count`: a recorded parse failure does not imply zero
counters. -/
theorem parse_error_with_nonzero_counters :
    let s := parse_jsonl_file "f"
      (.lines [Line.record ⟨"user", .absent, ⟨none, "", []⟩, false⟩,
               Line.nonObject "int object has no attribute get"])
    s.parse_error = some "int object has no attribute get" ∧ s.messages_count = 1 := by
  exact ⟨by decide, by decide⟩

/-- `parse_error` after the line loop: `none` iff it was `none` before and
no line raised out of the loop. -/
theorem parse_lines_parse_error (ls : List Line) (s : SessionStats) :
    (parse_lines ls s).parse_error = none ↔
      (s.parse_error = none ∧ ∀ msg, Line.nonObject msg ∉ ls) := by
  induction ls generalizing s with
  | nil => simp [parse_lines]
  | cons l rest ih =>
    cases l with
    | malformed => simp [parse_lines, ih]
    | record e =>
      rw [show parse_lines (Line.record e :: rest) s =
            parse_lines rest (process_entry e s) from rfl, ih,
        (process_entry_fields e s).2.2.1]
      simp
    | nonObject msg =>
      constructor
      · intro h
        rw [show parse_lines (Line.nonObject msg :: rest) s =
              { s with parse_error := some msg } from rfl] at h
        exact absurd h (by simp)
      · rintro ⟨-, h2⟩
        exact absurd (List.mem_cons_self _ _) (h2 msg)

/-- C10: `parse_jsonl_file` is total in this model — it returns a complete
`SessionStats` record (with `models_used` materialised as a list) for every
open outcome and every line stream — and every exception while opening or
processing is absorbed into `parse_error`: the result carries
`parse_error = none` exactly when the source was opened and no line raised
while being processed. -/
theorem parse_jsonl_file_absorbs (filepath : String) (content : FileContent) :
    (parse_jsonl_file filepath content).parse_error = none ↔
      ∃ ls, content = FileContent.lines ls ∧ ∀ msg, Line.nonObject msg ∉ ls := by
  cases content with
  | unreadable msg => simp [parse_jsonl_file, parse_jsonl_file_enum]
  | lines ls =>
    rw [show (parse_jsonl_file filepath (.lines ls)).parse_error =
          (parse_lines ls (init_stats filepath)).parse_error from rfl,
      parse_lines_parse_error]
    simp [init_stats]

/-- C10 witness: the theorem applied to a one-line source whose only line
is undecodable. -/
theorem parse_jsonl_file_absorbs_witness :
    (parse_jsonl_file "f" (.lines [Line.malformed])).parse_error = none :=
  (parse_jsonl_file_absorbs "f" (.lines [Line.malformed])).mpr
    ⟨[Line.malformed], rfl, fun msg hm => by simp at hm⟩

/-- The usage fields of a record are all non-negative (vacuously true for a
record without a truthy `usage`). -/
def entry_usage_nonneg (e : Entry) : Prop :=
  match e.message.usage with
  | some u => 0 ≤ u.input_tokens ∧ 0 ≤ u.output_tokens ∧
      0 ≤ u.cache_read_input_tokens ∧ 0 ≤ u.cache_creation_input_tokens
  | none => True

/-- A non-negative usage bundle contributes non-negatively to each token
counter. -/
theorem usage_contrib_nonneg (e : Entry) (h : entry_usage_nonneg e) :
    0 ≤ usage_contrib e Usage.input_tokens ∧
    0 ≤ usage_contrib e Usage.output_tokens ∧
    0 ≤ usage_contrib e Usage.cache_read_input_tokens ∧
    0 ≤ usage_contrib e Usage.cache_creation_input_tokens := by
  unfold usage_contrib
  unfold entry_usage_nonneg at h
  rcases hu : e.message.usage with _ | u
  all_goals rw [hu] at h
  all_goals by_cases ha : e.etype = "assistant" <;> simp [ha] <;> tauto

/-- Token counters of the parse fold stay non-negative when every record in
the stream has non-negative usage fields. -/
theorem parse_lines_counters_nonneg (ls : List Line) (s : SessionStats)
    (h : ∀ e, Line.record e ∈ ls → entry_usage_nonneg e)
    (h1 : 0 ≤ s.input_tokens) (h2 : 0 ≤ s.output_tokens)
    (h3 : 0 ≤ s.cache_read_tokens) (h4 : 0 ≤ s.cache_write_tokens) :
    0 ≤ (parse_lines ls s).input_tokens ∧ 0 ≤ (parse_lines ls s).output_tokens ∧
    0 ≤ (parse_lines ls s).cache_read_tokens ∧
    0 ≤ (parse_lines ls s).cache_write_tokens := by
  induction ls generalizing s with
  | nil => exact ⟨h1, h2, h3, h4⟩
  | cons l rest ih =>
    cases l with
    | malformed =>
      exact ih s (fun e he => h e (List.mem_cons_of_mem _ he)) h1 h2 h3 h4
    | record e =>
      have hne := h e (List.mem_cons_self _ _)
      obtain ⟨c1, c2, c3, c4⟩ := usage_contrib_nonneg e hne
      obtain ⟨-, -, -, f1, f2, f3, f4, -⟩ := process_entry_fields e s
      exact ih (process_entry e s) (fun e1 he1 => h e1 (List.mem_cons_of_mem _ he1))
        (f1 ▸ add_nonneg h1 c1) (f2 ▸ add_nonneg h2 c2)
        (f3 ▸ add_nonneg h3 c3) (f4 ▸ add_nonneg h4 c4)
    | nonObject msg => exact ⟨h1, h2, h3, h4⟩

/-- C8 (amended): no processed record whose usage fields are non-negative
can decrease any of the seven counters, and a source all of whose records
have non-negative usage fields parses to non-negative token counters
(`messages_count`, `tool_calls` and `errors` are counts in `ℕ` and
non-negative outright). -/
theorem parse_counters_nonneg_monotone (filepath : String) (ls : List Line)
    (h : ∀ e, Line.record e ∈ ls → entry_usage_nonneg e) :
    (∀ e s, entry_usage_nonneg e →
      s.input_tokens ≤ (process_entry e s).input_tokens ∧
      s.output_tokens ≤ (process_entry e s).output_tokens ∧
      s.cache_read_tokens ≤ (process_entry e s).cache_read_tokens ∧
      s.cache_write_tokens ≤ (process_entry e s).cache_write_tokens ∧
      s.messages_count ≤ (process_entry e s).messages_count ∧
      s.tool_calls ≤ (process_entry e s).tool_calls ∧
      s.errors ≤ (process_entry e s).errors) ∧
    (let r := parse_jsonl_file filepath (.lines ls)
     0 ≤ r.input_tokens ∧ 0 ≤ r.output_tokens ∧
     0 ≤ r.cache_read_tokens ∧ 0 ≤ r.cache_write_tokens) := by
  constructor
  · intro e s he
    obtain ⟨c1, c2, c3, c4⟩ := usage_contrib_nonneg e he
    obtain ⟨-, -, -, f1, f2, f3, f4, f5, f6, f7, -⟩ := process_entry_fields e s
    refine ⟨?_, ?_, ?_, ?_, ?_, ?_, ?_⟩
    · rw [f1]; linarith
    · rw [f2]; linarith
    · rw [f3]; linarith
    · rw [f4]; linarith
    · rw [f5]; exact Nat.le_add_right _ _
    · rw [f6]; exact Nat.le_add_right _ _
    · rw [f7]; exact Nat.le_add_right _ _
  · exact parse_lines_counters_nonneg ls (init_stats filepath) h
      le_rfl le_rfl le_rfl le_rfl

/-- C8 witness: the theorem applied to a one-record source with an all-zero
usage bundle. -/
theorem parse_counters_nonneg_monotone_witness :
    (∀ e s, entry_usage_nonneg e →
      s.input_tokens ≤ (process_entry e s).input_tokens ∧
      s.output_tokens ≤ (process_entry e s).output_tokens ∧
      s.cache_read_tokens ≤ (process_entry e s).cache_read_tokens ∧
      s.cache_write_tokens ≤ (process_entry e s).cache_write_tokens ∧
      s.messages_count ≤ (process_entry e s).messages_count ∧
      s.tool_calls ≤ (process_entry e s).tool_calls ∧
      s.errors ≤ (process_entry e s).errors) ∧
    (let r := parse_jsonl_file "f"
        (.lines [Line.record ⟨"assistant", .absent, ⟨some ⟨0, 0, 0, 0⟩, "m", []⟩, false⟩])
     0 ≤ r.input_tokens ∧ 0 ≤ r.output_tokens ∧
     0 ≤ r.cache_read_tokens ∧ 0 ≤ r.cache_write_tokens) :=
  parse_counters_nonneg_monotone "f"
    [Line.record ⟨"assistant", .absent, ⟨some ⟨0, 0, 0, 0⟩, "m", []⟩, false⟩]
    (fun e he => by
      simp only [List.mem_singleton, Line.record.injEq] at he
      subst he
      exact ⟨le_rfl, le_rfl, le_rfl, le_rfl⟩)

/-- C8 counterexample: JSON admits negative numbers, and the program adds
`usage.get("input_tokens", 0)` unchecked, so a record with
`"input_tokens": -5` drives the counter below zero. -/
theorem parse_negative_counter :
    (parse_jsonl_file "f"
      (.lines [Line.record ⟨"assistant", .absent, ⟨some ⟨-5, 0, 0, 0⟩, "", []⟩, false⟩])).input_tokens
      = -5 ∧ (-5 : ℤ) < 0 := by
  exact ⟨by decide, by decide⟩

/-- `set.add` keeps the contents list duplicate-free. -/
theorem set_add_nodup (s : List String) (m : String) (h : s.Nodup) :
    (set_add s m).Nodup := by
  unfold set_add
  split
  · exact h
  · rename_i hm
    simp [List.nodup_append, h, hm]

/-- The model set stays duplicate-free through the whole line loop. -/
theorem parse_lines_models_nodup (ls : List Line) (s : SessionStats)
    (h : s.models_used.Nodup) : (parse_lines ls s).models_used.Nodup := by
  induction ls generalizing s with
  | nil => exact h
  | cons l rest ih =>
    cases l with
    | malformed => exact ih s h
    | record e =>
      refine ih (process_entry e s) ?_
      rw [(process_entry_fields e s).2.2.2.2.2.2.2.2.2.2]
      split
      · exact set_add_nodup _ _ h
      · exact h
    | nonObject msg => exact h

/-- The set contents accumulated by a parse, before materialisation. -/
theorem parse_models_nodup (filepath : String) (content : FileContent) :
    (parse_jsonl_file filepath content).models_used.Nodup := by
  cases content with
  | unreadable msg => exact List.nodup_nil
  | lines ls => exact parse_lines_models_nodup ls (init_stats filepath) List.nodup_nil

/-- Materialisation under any enumeration is the enumeration of the set
contents accumulated in insertion order. -/
theorem parse_enum_models (enum : List String → List String)
    (filepath : String) (content : FileContent) :
    (parse_jsonl_file_enum enum filepath content).models_used =
      enum ((parse_jsonl_file filepath content).models_used) := rfl

/-- C9 (amended): `models_used` is duplicate-free and its CONTENTS are
deterministic — any two materialisations of the same parse (under any two
valid set-enumeration orders, e.g. two interpreter runs with different
hash seeds) are permutations of each other — but the ORDER of the returned
list is not fixed (see the counterexample). -/
theorem parse_models_dedup_deterministic (e1 e2 : List String → List String)
    (h1 : valid_enum e1) (h2 : valid_enum e2)
    (filepath : String) (content : FileContent) :
    (parse_jsonl_file_enum e1 filepath content).models_used.Nodup ∧
    (parse_jsonl_file_enum e1 filepath content).models_used.Perm
      (parse_jsonl_file_enum e2 filepath content).models_used := by
  rw [parse_enum_models, parse_enum_models]
  constructor
  · exact ((h1 _).symm.nodup_iff).mp (parse_models_nodup filepath content)
  · exact (h1 _).trans (h2 _).symm

/-- C9 witness: the amended theorem applied to the identity and reversal
enumerations on a concrete two-model source. -/
theorem parse_models_dedup_deterministic_witness :
    (parse_jsonl_file_enum id "f"
      (.lines [Line.record ⟨"assistant", .absent, ⟨none, "a", []⟩, false⟩,
               Line.record ⟨"assistant", .absent, ⟨none, "b", []⟩, false⟩])).models_used.Nodup ∧
    (parse_jsonl_file_enum id "f"
      (.lines [Line.record ⟨"assistant", .absent, ⟨none, "a", []⟩, false⟩,
               Line.record ⟨"assistant", .absent, ⟨none, "b", []⟩, false⟩])).models_used.Perm
      (parse_jsonl_file_enum List.reverse "f"
        (.lines [Line.record ⟨"assistant", .absent, ⟨none, "a", []⟩, false⟩,
                 Line.record ⟨"assistant", .absent, ⟨none, "b", []⟩, false⟩])).models_used :=
  parse_models_dedup_deterministic id List.reverse
    (fun s => List.Perm.refl s) (fun s => List.reverse_perm s) "f"
    (.lines [Line.record ⟨"assistant", .absent, ⟨none, "a", []⟩, false⟩,
             Line.record ⟨"assistant", .absent, ⟨none, "b", []⟩, false⟩])

/-- C9 counterexample: the identity and reversal enumerations are both
valid materialisation orders for `list(set)` (CPython's order is
hash-dependent and varies between interpreter runs), yet they give the
two-model source differently-ordered `models_used` lists — the order of
the returned list is not determined by the input alone. -/
theorem parse_models_order_not_deterministic :
    valid_enum id ∧ valid_enum List.reverse ∧
    (parse_jsonl_file_enum id "f"
      (.lines [Line.record ⟨"assistant", .absent, ⟨none, "a", []⟩, false⟩,
               Line.record ⟨"assistant", .absent, ⟨none, "b", []⟩, false⟩])).models_used ≠
      (parse_jsonl_file_enum List.reverse "f"
        (.lines [Line.record ⟨"assistant", .absent, ⟨none, "a", []⟩, false⟩,
                 Line.record ⟨"assistant", .absent, ⟨none, "b", []⟩, false⟩])).models_used :=
  ⟨fun s => List.Perm.refl s, fun s => List.reverse_perm s, by decide⟩

/-- `set.update(iterable)`: add every element in order. -/
def set_update (s : List String) (ms : List String) : List String :=
  ms.foldl set_add s

/-- The `agg` dictionary of `get_aggregated_stats` (lines 179–216).
`projects` and `models_used` are set contents in insertion order;
`total_tokens` is only written after the loop (line 214). -/
structure AggregateStats where
  total_sessions : ℕ
  total_input_tokens : ℤ
  total_output_tokens : ℤ
  total_cache_read_tokens : ℤ
  total_cache_write_tokens : ℤ
  total_messages : ℕ
  total_tool_calls : ℕ
  total_errors : ℕ
  projects : List String
  models_used : List String
  oldest_session : Option ℤ
  newest_session : Option ℤ
  total_tokens : ℤ
  deriving DecidableEq

/-- The body of the `for s in sessions` loop of `get_aggregated_stats`
(lines 194–210): sum every counter, union the project and model sets, and
track the min `start_time` / max `end_time` (absent timestamps do not
participate). -/
def agg_step (agg : AggregateStats) (s : SessionStats) : AggregateStats :=
  let agg := { agg with
    total_input_tokens := agg.total_input_tokens + s.input_tokens
    total_output_tokens := agg.total_output_tokens + s.output_tokens
    total_cache_read_tokens := agg.total_cache_read_tokens + s.cache_read_tokens
    total_cache_write_tokens := agg.total_cache_write_tokens + s.cache_write_tokens
    total_messages := agg.total_messages + s.messages_count
    total_tool_calls := agg.total_tool_calls + s.tool_calls
    total_errors := agg.total_errors + s.errors
    projects := set_add agg.projects s.project
    models_used := set_update agg.models_used s.models_used }
  let agg :=
    match s.start_time with
    | some t =>
      match agg.oldest_session with
      | none => { agg with oldest_session := some t }
      | some o => if t < o then { agg with oldest_session := some t } else agg
    | none => agg
  match s.end_time with
  | some t =>
    match agg.newest_session with
    | none => { agg with newest_session := some t }
    | some o => if o < t then { agg with newest_session := some t } else agg
  | none => agg

/-- The initial `agg` dictionary (lines 179–192); the Python dict has no
`total_tokens` key until line 214, modelled by a `0` placeholder. -/
def init_agg (sessions : List SessionStats) : AggregateStats :=
  { total_sessions := sessions.length
    total_input_tokens := 0
    total_output_tokens := 0
    total_cache_read_tokens := 0
    total_cache_write_tokens := 0
    total_messages := 0
    total_tool_calls := 0
    total_errors := 0
    projects := []
    models_used := []
    oldest_session := none
    newest_session := none
    total_tokens := 0 }

/-- `get_aggregated_stats` (lines 174–216) applied to an explicit session
list (the `sessions is None` default re-collection is the caller's
concern, modelled by `get_all_sessions_stats` below). -/
def get_aggregated_stats (sessions : List SessionStats) : AggregateStats :=
  let agg := sessions.foldl agg_step (init_agg sessions)
  { agg with total_tokens := agg.total_input_tokens + agg.total_output_tokens }

/-- `get_all_sessions_stats` (lines 160–172), over an abstract ordered list
of discovered sources with their contents.  `if limit:` is Python
truthiness, so both `None` and `0` skip the slice; a parsed session is kept
only when `messages_count > 0`. -/
def get_all_sessions_stats (sources : List (String × FileContent))
    (limit : Option ℕ) : List SessionStats :=
  let files :=
    match limit with
    | some n => if n ≠ 0 then sources.take n else sources
    | none => sources
  (files.map (fun fc => parse_jsonl_file fc.1 fc.2)).filter
    (fun s => decide (0 < s.messages_count))

/-- C4 (amended): the `messageCount == 0` exclusion lives in
`get_all_sessions_stats` — every session the collection layer returns has
`messages_count > 0`, so aggregation over its output never sees an empty
session — while `get_aggregated_stats` itself sums every session in the
list it is given (see the counterexample). -/
theorem get_all_sessions_stats_excludes_empty
    (sources : List (String × FileContent)) (limit : Option ℕ) :
    ∀ s ∈ get_all_sessions_stats sources limit, 0 < s.messages_count := by
  intro s hs
  unfold get_all_sessions_stats at hs
  simp only [List.mem_filter, decide_eq_true_eq] at hs
  exact hs.2

/-- C4 witness: the theorem applied to a concrete one-source list whose
parse has one user message. -/
theorem get_all_sessions_stats_excludes_empty_witness :
    0 < (parse_jsonl_file "f"
      (.lines [Line.record ⟨"user", .absent, ⟨none, "", []⟩, false⟩])).messages_count :=
  get_all_sessions_stats_excludes_empty
    [("f", .lines [Line.record ⟨"user", .absent, ⟨none, "", []⟩, false⟩])] none
    (parse_jsonl_file "f"
      (.lines [Line.record ⟨"user", .absent, ⟨none, "", []⟩, false⟩]))
    (by decide)

/-- C4 counterexample: `get_aggregated_stats` does NOT filter out sessions
with `messages_count == 0` — a zero-message session with five input tokens
changes the totals, the session count and the project set, so aggregating
it is different from aggregating the empty-session-filtered list. -/
theorem get_aggregated_stats_includes_empty :
    let s0 : SessionStats :=
      { file := "f", project := "p", input_tokens := 5, output_tokens := 0
        cache_read_tokens := 0, cache_write_tokens := 0, messages_count := 0
        tool_calls := 0, models_used := [], start_time := none, end_time := none
        errors := 0, parse_error := none }
    get_aggregated_stats [s0] ≠
      get_aggregated_stats ([s0].filter (fun s => decide (0 < s.messages_count))) ∧
    (get_aggregated_stats [s0]).total_input_tokens = 5 ∧
    (get_aggregated_stats [s0]).total_sessions = 1 ∧
    (get_aggregated_stats [s0]).projects = ["p"] := by
  exact ⟨by decide, by decide, by decide, by decide⟩

/-- Association-list access, the specification-side observer of the
`defaultdict` folds below. -/
def alist_get {K β : Type} [DecidableEq K] (k : K) : List (K × β) → Option β
  | [] => none
  | kv :: rest => if kv.1 = k then some kv.2 else alist_get k rest

/-- `defaultdict` access-and-update: modify the value at `k` in place, or
append the freshly-defaulted updated value at the end on first access
(CPython dicts preserve insertion order). -/
def dd_update {K β : Type} [DecidableEq K] (k : K) (f : β → β) (zero : β) :
    List (K × β) → List (K × β)
  | [] => [(k, f zero)]
  | kv :: rest =>
    if kv.1 = k then (kv.1, f kv.2) :: rest else kv :: dd_update k f zero rest

/-- Reading back the key just updated. -/
theorem alist_get_dd_update_self {K β : Type} [DecidableEq K]
    (k : K) (f : β → β) (zero : β) (l : List (K × β)) :
    alist_get k (dd_update k f zero l) = some (f ((alist_get k l).getD zero)) := by
  induction l with
  | nil => simp [dd_update, alist_get]
  | cons kv rest ih =>
    by_cases h : kv.1 = k <;> simp [dd_update, alist_get, h, ih]

/-- Reading any other key is unaffected. -/
theorem alist_get_dd_update_other {K β : Type} [DecidableEq K]
    (k k1 : K) (hk : k1 ≠ k) (f : β → β) (zero : β) (l : List (K × β)) :
    alist_get k1 (dd_update k f zero l) = alist_get k1 l := by
  induction l with
  | nil => simp [dd_update, alist_get, Ne.symm hk]
  | cons kv rest ih =>
    by_cases h : kv.1 = k
    · simp [dd_update, alist_get, h, Ne.symm hk]
    · by_cases h2 : kv.1 = k1 <;>
        simp [dd_update, alist_get, h, h2, hk, ih]

/-- `dd_update` either keeps the key list or appends the fresh key. -/
theorem dd_update_keys {K β : Type} [DecidableEq K]
    (k : K) (f : β → β) (zero : β) (l : List (K × β)) :
    (dd_update k f zero l).map Prod.fst =
      if k ∈ l.map Prod.fst then l.map Prod.fst else l.map Prod.fst ++ [k] := by
  induction l with
  | nil => simp [dd_update]
  | cons kv rest ih =>
    by_cases h : kv.1 = k
    · simp [dd_update, h]
    · have h1 : k ≠ kv.1 := Ne.symm h
      by_cases hm : k ∈ rest.map Prod.fst <;>
        simp [dd_update, h, ih, hm, h1]

/-- `dd_update` keeps the key list duplicate-free. -/
theorem dd_update_keys_nodup {K β : Type} [DecidableEq K]
    (k : K) (f : β → β) (zero : β) (l : List (K × β))
    (h : (l.map Prod.fst).Nodup) :
    ((dd_update k f zero l).map Prod.fst).Nodup := by
  rw [dd_update_keys]
  split
  · exact h
  · rename_i hm
    simp [List.nodup_append, h, hm]

/-- The common shape of the `defaultdict` accumulation loops in
`get_daily_stats` and the top-projects block of `main`: each element either
selects a bucket key (and updates that bucket, defaulting it on first
access) or is skipped. -/
def dd_step {K β σ : Type} [DecidableEq K] (key_of : σ → Option K)
    (u : β → σ → β) (zero : β) (acc : List (K × β)) (s : σ) : List (K × β) :=
  match key_of s with
  | some k => dd_update k (fun b => u b s) zero acc
  | none => acc

/-- What one bucket of a `defaultdict` fold holds: the updates of exactly
the elements that selected its key, folded in stream order over the
default, or nothing when no element selected the key. -/
theorem dd_step_fold_get {K β σ : Type} [DecidableEq K] (key_of : σ → Option K)
    (u : β → σ → β) (zero : β) (ss : List σ) (acc : List (K × β)) (d : K) :
    alist_get d (ss.foldl (dd_step key_of u zero) acc) =
      (let rel := ss.filter (fun s => decide (key_of s = some d))
       match alist_get d acc with
       | some b => some (rel.foldl u b)
       | none => if rel.isEmpty then none else some (rel.foldl u zero)) := by
  induction ss generalizing acc with
  | nil => cases h : alist_get d acc <;> simp [h]
  | cons s ss ih =>
    rw [List.foldl_cons, ih]
    cases hk : key_of s with
    | none =>
      have hstep : dd_step key_of u zero acc s = acc := by
        unfold dd_step; rw [hk]
      rw [hstep]
      simp [List.filter_cons, hk]
    | some k =>
      have hstep : dd_step key_of u zero acc s =
          dd_update k (fun b => u b s) zero acc := by
        unfold dd_step; rw [hk]
      rw [hstep]
      by_cases hkd : k = d
      · subst hkd
        rw [alist_get_dd_update_self]
        cases hacc : alist_get k acc <;>
          simp [List.filter_cons, hk, hacc]
      · rw [alist_get_dd_update_other k d (Ne.symm hkd)]
        have hne : (key_of s = some d) = False := by
          simp [hk, hkd]
        simp [List.filter_cons, hk, hkd]

/-- A `defaultdict` fold started from an empty dict has duplicate-free
keys. -/
theorem dd_step_fold_keys_nodup {K β σ : Type} [DecidableEq K]
    (key_of : σ → Option K) (u : β → σ → β) (zero : β) (ss : List σ)
    (acc : List (K × β)) (h : (acc.map Prod.fst).Nodup) :
    ((ss.foldl (dd_step key_of u zero) acc).map Prod.fst).Nodup := by
  induction ss generalizing acc with
  | nil => exact h
  | cons s ss ih =>
    rw [List.foldl_cons]
    refine ih _ ?_
    unfold dd_step
    cases key_of s with
    | none => exact h
    | some k => exact dd_update_keys_nodup k _ zero acc h

/-- With duplicate-free keys, association access is membership. -/
theorem alist_get_eq_some_iff {K β : Type} [DecidableEq K]
    (l : List (K × β)) (hk : (l.map Prod.fst).Nodup) (k : K) (v : β) :
    alist_get k l = some v ↔ (k, v) ∈ l := by
  induction l with
  | nil => simp [alist_get]
  | cons kv rest ih =>
    simp only [List.map_cons, List.nodup_cons] at hk
    by_cases h : kv.1 = k
    · subst h
      have hnm : (kv.1, v) ∉ rest := fun hmem =>
        hk.1 (List.mem_map.mpr ⟨(kv.1, v), hmem, rfl⟩)
      simp only [alist_get, if_pos rfl, List.mem_cons]
      constructor
      · rintro h1
        left
        cases kv
        simpa using h1.symm
      · rintro (h1 | h1)
        · cases kv; simpa using congrArg Prod.snd h1.symm
        · exact absurd h1 hnm
    · simp only [alist_get, if_neg h, List.mem_cons]
      rw [ih hk.2]
      constructor
      · exact Or.inr
      · rintro (h1 | h1)
        · exact absurd (congrArg Prod.fst h1.symm) h
        · exact h1

/-- Association access fails exactly off the key list. -/
theorem alist_get_eq_none_iff {K β : Type} [DecidableEq K]
    (l : List (K × β)) (k : K) :
    alist_get k l = none ↔ k ∉ l.map Prod.fst := by
  induction l with
  | nil => simp [alist_get]
  | cons kv rest ih =>
    by_cases h : kv.1 = k
    · simp [alist_get, h]
    · simp [alist_get, h, ih, Ne.symm h]

/-- With duplicate-free keys, association access is invariant under
permutation. -/
theorem alist_get_perm {K β : Type} [DecidableEq K]
    {l l1 : List (K × β)} (h : l.Perm l1) (hk : (l.map Prod.fst).Nodup)
    (k : K) : alist_get k l = alist_get k l1 := by
  have hk1 : (l1.map Prod.fst).Nodup := ((h.map Prod.fst).nodup_iff).mp hk
  cases h1 : alist_get k l1 with
  | none =>
    rw [alist_get_eq_none_iff] at h1 ⊢
    exact fun hm => h1 (((h.map Prod.fst).mem_iff).mp hm)
  | some v =>
    rw [alist_get_eq_some_iff l1 hk1] at h1
    rw [alist_get_eq_some_iff l hk]
    exact (h.mem_iff).mpr h1

/-- One bucket of `get_daily_stats`
(`defaultdict(lambda: {"tokens": 0, "messages": 0, "sessions": 0})`,
line 242). -/
structure DailyBucket where
  tokens : ℤ
  messages : ℕ
  sessions : ℕ
  deriving DecidableEq

/-- The calendar date of a timestamp (`end_time.strftime("%Y-%m-%d")`,
line 246), modelled as the day number of the integer timestamp. -/
def date_of (t : ℤ) : ℤ := t / 86400

/-- The key a session selects in the daily loop (lines 244–246): the date
of its `end_time` when that is present and strictly after the cutoff,
nothing otherwise (`if s["end_time"] and s["end_time"] > cutoff`). -/
def daily_key (cutoff : ℤ) (s : SessionStats) : Option ℤ :=
  match s.end_time with
  | some t => if cutoff < t then some (date_of t) else none
  | none => none

/-- The three `+=` updates of one daily bucket (lines 247–249). -/
def daily_add (b : DailyBucket) (s : SessionStats) : DailyBucket :=
  { tokens := b.tokens + (s.input_tokens + s.output_tokens)
    messages := b.messages + s.messages_count
    sessions := b.sessions + 1 }

/-- `get_daily_stats` (lines 236–251): cutoff `now − days` (line 241), the
`defaultdict` bucketing loop, and `dict(sorted(daily.items()))`
(line 251) — the buckets in ascending key order. -/
def get_daily_stats (sessions : List SessionStats) (now : ℤ) (days : ℕ) :
    List (ℤ × DailyBucket) :=
  let cutoff := now - (days : ℤ) * 86400
  let daily := sessions.foldl (dd_step (daily_key cutoff) daily_add ⟨0, 0, 0⟩) []
  daily.mergeSort (fun a b => decide (a.1 ≤ b.1))

/-- Folding bucket updates is field-wise summation. -/
theorem daily_add_foldl (rel : List SessionStats) (b : DailyBucket) :
    rel.foldl daily_add b =
      { tokens := b.tokens + (rel.map (fun s => s.input_tokens + s.output_tokens)).sum
        messages := b.messages + (rel.map (fun s => s.messages_count)).sum
        sessions := b.sessions + rel.length } := by
  induction rel generalizing b with
  | nil => simp
  | cons s rest ih =>
    rw [List.foldl_cons, ih]
    simp only [daily_add, List.map_cons, List.sum_cons, List.length_cons,
      DailyBucket.mk.injEq]
    refine ⟨by ring, by omega, by omega⟩

/-- Ascending-by-key `Pairwise` order, strictly, from the sort plus
duplicate-free keys. -/
theorem pairwise_lt_of_le_nodup {β : Type} (l : List (ℤ × β))
    (hle : l.Pairwise (fun a b => a.1 ≤ b.1))
    (hnd : (l.map Prod.fst).Nodup) :
    l.Pairwise (fun a b => a.1 < b.1) := by
  have hne : l.Pairwise (fun a b => a.1 ≠ b.1) := List.pairwise_map.mp hnd
  exact (hle.and hne).imp (fun h => lt_of_le_of_ne h.1 h.2)

/-- C5: `get_daily_stats` includes a session exactly when its `end_time`
is present and strictly after `now − windowDays` (a session without an
`end_time` is excluded whatever its other fields hold); each included
session is bucketed under the calendar date of its `end_time`, a bucket
summing `inputTokens + outputTokens` into `tokens`, `messageCount` into
`messages`, and one per session into `sessionCount`; and the returned
association list is in strictly ascending date order. -/
theorem get_daily_stats_correct (sessions : List SessionStats) (now : ℤ)
    (days : ℕ) :
    let cutoff := now - (days : ℤ) * 86400
    let r := get_daily_stats sessions now days
    r.Pairwise (fun a b => a.1 < b.1) ∧
    ∀ d : ℤ,
      alist_get d r =
        (let rel := sessions.filter (fun s => decide (daily_key cutoff s = some d))
         if rel.isEmpty then none
         else some
           { tokens := (rel.map (fun s => s.input_tokens + s.output_tokens)).sum
             messages := (rel.map (fun s => s.messages_count)).sum
             sessions := rel.length }) := by
  intro cutoff r
  have htrans : ∀ a b c : ℤ × DailyBucket,
      decide (a.1 ≤ b.1) → decide (b.1 ≤ c.1) → decide (a.1 ≤ c.1) := by
    intro a b c hab hbc
    simp only [decide_eq_true_eq] at hab hbc ⊢
    exact le_trans hab hbc
  have htotal : ∀ a b : ℤ × DailyBucket,
      (decide (a.1 ≤ b.1) || decide (b.1 ≤ a.1)) = true := by
    intro a b
    simpa using le_total a.1 b.1
  have hfoldnd : ((sessions.foldl
      (dd_step (daily_key cutoff) daily_add ⟨0, 0, 0⟩) []).map Prod.fst).Nodup :=
    dd_step_fold_keys_nodup _ _ _ sessions [] (by simp)
  have hperm := List.mergeSort_perm
    (sessions.foldl (dd_step (daily_key cutoff) daily_add ⟨0, 0, 0⟩) [])
    (fun a b => decide (a.1 ≤ b.1))
  have hndr : (r.map Prod.fst).Nodup :=
    ((hperm.map Prod.fst).nodup_iff).mpr hfoldnd
  constructor
  · refine pairwise_lt_of_le_nodup r ?_ hndr
    have := List.sorted_mergeSort htrans htotal
      (sessions.foldl (dd_step (daily_key cutoff) daily_add ⟨0, 0, 0⟩) [])
    exact this.imp (fun h => by simpa using h)
  · intro d
    have hget : alist_get d r = alist_get d
        (sessions.foldl (dd_step (daily_key cutoff) daily_add ⟨0, 0, 0⟩) []) :=
      alist_get_perm hperm hndr d
    rw [hget, dd_step_fold_get]
    simp only [alist_get]
    split
    · rfl
    · rename_i hne
      rw [daily_add_foldl]
      simp

/-- One value of the top-projects `defaultdict`
(`{"tokens": 0, "messages": 0}`, line 435). -/
structure ProjectBucket where
  tokens : ℤ
  messages : ℕ
  deriving DecidableEq

/-- The two `+=` updates of one project group (lines 437–438). -/
def project_add (b : ProjectBucket) (s : SessionStats) : ProjectBucket :=
  { tokens := b.tokens + (s.input_tokens + s.output_tokens)
    messages := b.messages + s.messages_count }

/-- The `project_stats` accumulation loop of `main` (lines 435–438): every
session selects its project's bucket (first-discovery insertion order). -/
def project_stats (sessions : List SessionStats) : List (String × ProjectBucket) :=
  sessions.foldl (dd_step (fun s => some s.project) project_add ⟨0, 0⟩) []

/-- The top-projects computation of `main` (lines 435–439):
`sorted(project_stats.items(), key=lambda x: x[1]["tokens"],
reverse=True)[:n]` — Python's stable sort, descending by token sum, then
truncation (the program instantiates `n = 5`). -/
def top_projects (sessions : List SessionStats) (n : ℕ) :
    List (String × ProjectBucket) :=
  ((project_stats sessions).mergeSort
    (fun a b => decide (b.2.tokens ≤ a.2.tokens))).take n

/-- Folding project updates is field-wise summation. -/
theorem project_add_foldl (rel : List SessionStats) (b : ProjectBucket) :
    rel.foldl project_add b =
      { tokens := b.tokens + (rel.map (fun s => s.input_tokens + s.output_tokens)).sum
        messages := b.messages + (rel.map (fun s => s.messages_count)).sum } := by
  induction rel generalizing b with
  | nil => simp
  | cons s rest ih =>
    rw [List.foldl_cons, ih]
    simp only [project_add, List.map_cons, List.sum_cons, ProjectBucket.mk.injEq]
    refine ⟨by ring, by omega⟩

/-- A pair that is a sublist of a duplicate-free list stays a sublist of
any truncation that still contains its second component. -/
theorem pair_sublist_take {α : Type} {x y : α} :
    ∀ {l : List α} {n : ℕ}, l.Nodup → List.Sublist [x, y] l → y ∈ l.take n →
      List.Sublist [x, y] (l.take n) := by
  intro l
  induction l with
  | nil => intro n _ h _; exact absurd h (by simp)
  | cons a t ih =>
    intro n hnd h hy
    cases n with
    | zero => exact absurd hy (by simp)
    | succ m =>
      rw [List.take_succ_cons] at hy ⊢
      simp only [List.nodup_cons] at hnd
      cases h with
      | cons _ h1 =>
        rcases List.mem_cons.mp hy with hya | hyt
        · exact absurd (hya ▸ (h1.subset (by simp))) hnd.1
        · exact (ih hnd.2 h1 hyt).cons a
      | cons₂ _ h1 =>
        rcases List.mem_cons.mp hy with hya | hyt
        · have hyt1 : y ∈ t := List.singleton_sublist.mp h1
          exact absurd (hya ▸ hyt1) hnd.1
        · exact (List.singleton_sublist.mpr hyt).cons₂ x

/-- C6: the top-projects computation groups the sessions by project
(summing `inputTokens + outputTokens` into `tokens` and `messageCount`
into `messages`, and only for projects that occur), sorts the groups
descending by token sum with ties kept in first-discovery order (stable
sort), and truncates to the first `n` entries. -/
theorem top_projects_correct (sessions : List SessionStats) (n : ℕ) :
    (top_projects sessions n).length = min n (project_stats sessions).length ∧
    (∀ p b, (p, b) ∈ top_projects sessions n →
      (let rel := sessions.filter (fun s => decide (s.project = p))
       rel ≠ [] ∧
       b.tokens = (rel.map (fun s => s.input_tokens + s.output_tokens)).sum ∧
       b.messages = (rel.map (fun s => s.messages_count)).sum)) ∧
    (top_projects sessions n).Pairwise (fun a b => b.2.tokens ≤ a.2.tokens) ∧
    (∀ x y, List.Sublist [x, y] (project_stats sessions) →
      x.2.tokens = y.2.tokens → y ∈ top_projects sessions n →
      List.Sublist [x, y] (top_projects sessions n)) := by
  have htrans : ∀ a b c : String × ProjectBucket,
      decide (b.2.tokens ≤ a.2.tokens) → decide (c.2.tokens ≤ b.2.tokens) →
        decide (c.2.tokens ≤ a.2.tokens) := by
    intro a b c hab hbc
    simp only [decide_eq_true_eq] at hab hbc ⊢
    exact le_trans hbc hab
  have htotal : ∀ a b : String × ProjectBucket,
      (decide (b.2.tokens ≤ a.2.tokens) || decide (a.2.tokens ≤ b.2.tokens)) = true := by
    intro a b
    simpa using le_total b.2.tokens a.2.tokens
  have hkeysnd : ((project_stats sessions).map Prod.fst).Nodup :=
    dd_step_fold_keys_nodup _ _ _ sessions [] (by simp)
  have hnd : (project_stats sessions).Nodup := hkeysnd.of_map _
  have hperm := List.mergeSort_perm (project_stats sessions)
    (fun a b => decide (b.2.tokens ≤ a.2.tokens))
  refine ⟨?_, ?_, ?_, ?_⟩
  · simp [top_projects, List.length_take, List.length_mergeSort]
  · intro p b hmem
    dsimp only
    have hmem1 : (p, b) ∈ project_stats sessions :=
      (hperm.mem_iff).mp (List.mem_of_mem_take hmem)
    have hget : alist_get p (project_stats sessions) = some b :=
      (alist_get_eq_some_iff _ hkeysnd p b).mpr hmem1
    rw [show project_stats sessions =
          sessions.foldl (dd_step (fun s => some s.project) project_add ⟨0, 0⟩) []
        from rfl, dd_step_fold_get] at hget
    simp only [alist_get] at hget
    have hfe : sessions.filter (fun s => decide ((some s.project : Option String) = some p)) =
        sessions.filter (fun s => decide (s.project = p)) := by
      apply List.filter_congr
      intro s _
      simp
    rw [hfe] at hget
    split at hget
    · exact absurd hget (by simp)
    · rename_i hne
      rw [project_add_foldl] at hget
      have hb := Option.some.inj hget
      subst hb
      refine ⟨?_, by simp, by simp⟩
      intro h0
      rw [h0] at hne
      simp at hne
  · have hsorted := List.sorted_mergeSort htrans htotal (project_stats sessions)
    have htake := hsorted.sublist (List.take_sublist n _)
    exact htake.imp (fun h => by simpa using h)
  · intro x y hsub heq hy
    have hle : decide (y.2.tokens ≤ x.2.tokens) = true := by
      simp [heq]
    have hpair := List.pair_sublist_mergeSort htrans htotal hle hsub
    have hndm : ((project_stats sessions).mergeSort
        (fun a b => decide (b.2.tokens ≤ a.2.tokens))).Nodup :=
      (hperm.nodup_iff).mpr hnd
    exact pair_sublist_take hndm hpair hy

/-- C6 witness: two projects discovered in the order `"a"`, `"b"` with
equal token sums keep that order in the output; the theorem is applied at
this concrete input. -/
theorem top_projects_correct_witness :
    let sa : SessionStats :=
      { file := "fa", project := "a", input_tokens := 1, output_tokens := 0
        cache_read_tokens := 0, cache_write_tokens := 0, messages_count := 1
        tool_calls := 0, models_used := [], start_time := none, end_time := none
        errors := 0, parse_error := none }
    let sb : SessionStats :=
      { file := "fb", project := "b", input_tokens := 1, output_tokens := 0
        cache_read_tokens := 0, cache_write_tokens := 0, messages_count := 1
        tool_calls := 0, models_used := [], start_time := none, end_time := none
        errors := 0, parse_error := none }
    List.Sublist [("a", (⟨1, 1⟩ : ProjectBucket)), ("b", ⟨1, 1⟩)]
      (top_projects [sa, sb] 5) ∧
    (top_projects [sa, sb] 5).length = min 5 (project_stats [sa, sb]).length := by
  intro sa sb
  have hps : project_stats [sa, sb] =
      [("a", (⟨1, 1⟩ : ProjectBucket)), ("b", ⟨1, 1⟩)] := by decide
  have htop : top_projects [sa, sb] 5 =
      [("a", (⟨1, 1⟩ : ProjectBucket)), ("b", ⟨1, 1⟩)] := by
    unfold top_projects
    rw [hps, List.mergeSort_of_sorted (by decide)]
    rfl
  refine ⟨?_, (top_projects_correct [sa, sb] 5).1⟩
  exact (top_projects_correct [sa, sb] 5).2.2.2
    ("a", ⟨1, 1⟩) ("b", ⟨1, 1⟩)
    (hps ▸ List.Sublist.refl _) rfl
    (by rw [htop]; simp)

end ClaudTracker
